import Mathlib

/-!
Verification development for a Go HTTP load-generation engine.

The definitions below are a shallow embedding of the benchmark core:
the statistics aggregator (`Stats`, from `pkg/benchmark/threshold.go`),
the scenario executor (`executeStep` / `ExecuteScenario`, from
`pkg/benchmark/scenario.go`), the token-bucket rate limiter and the
weighted request selector (from the rate-limiter/selector source file),
and the threshold evaluator (`EvaluateThresholds` /`checkErrorRate`,
from `pkg/benchmark/threshold.go`).

Modelling conventions:
* Go `int64` / `int` values are modelled as `ℤ` (no overflow occurs in
  the reachable ranges of these functions).
* Go `float64` arithmetic is modelled as exact rational arithmetic
  (`ℚ`); every float stored by this code is an exact integer
  (microsecond counts converted from `int64`), so the response-time
  sample list is modelled as `List ℤ`.
* Go maps are modelled as association lists; map iteration is modelled
  as list traversal, with a `Nodup`-keys hypothesis standing in for the
  distinctness of Go map keys.
* External effects (the HTTP round trip, `gjson` path evaluation, regex
  matching) are supplied as oracle inputs to the executor: the executor
  itself (control flow, statistics recording, variable merging) is
  translated from the source.
-/

namespace BenchGo

/-- Per-endpoint statistics entry (`RequestStats` in `threshold.go`):
independently locked counters keyed by request name. -/
structure RequestStats where
  name : String
  url : String
  method : String
  requestCount : ℤ := 0
  successCount : ℤ := 0
  failureCount : ℤ := 0
  totalLatency : ℤ := 0
  deriving Repr, DecidableEq

/-- The mutable statistics aggregate (`Stats` in `threshold.go`).
Response-time samples are `int64` microseconds, stored by Go as exact
`float64` values; they are modelled as `List ℤ` (append order preserved). -/
structure Stats where
  totalRequests : ℤ := 0
  successCount : ℤ := 0
  failureCount : ℤ := 0
  http1xxCount : ℤ := 0
  http2xxCount : ℤ := 0
  http3xxCount : ℤ := 0
  http4xxCount : ℤ := 0
  http5xxCount : ℤ := 0
  otherCount : ℤ := 0
  totalBytes : ℤ := 0
  totalResponseTime : ℤ := 0
  responseCount : ℤ := 0
  minResponseTime : ℤ := 0
  maxResponseTime : ℤ := 0
  responseTimes : List ℤ := []
  errors : List (String × ℤ) := []
  requestStats : List (String × RequestStats) := []
  deriving Repr

/-- `NewStats` (`threshold.go`): zeroed counters, `minResponseTime`
initialised to `math.MaxInt64`. -/
def NewStats : Stats :=
  { minResponseTime := 9223372036854775807 }

/-- `Stats.AddResponseTime` (`threshold.go`): accumulate the running
total and count, update min/max, and append the sample. -/
def Stats.AddResponseTime (s : Stats) (responseTimeMicros : ℤ) : Stats :=
  { s with
    totalResponseTime := s.totalResponseTime + responseTimeMicros
    responseCount := s.responseCount + 1
    minResponseTime :=
      if responseTimeMicros < s.minResponseTime then responseTimeMicros
      else s.minResponseTime
    maxResponseTime :=
      if responseTimeMicros > s.maxResponseTime then responseTimeMicros
      else s.maxResponseTime
    responseTimes := s.responseTimes ++ [responseTimeMicros] }

/-- Bump a message count in an error table (the Go map increment
`errors[msg]++`, which inserts `1` when the key is absent). -/
def bumpError : List (String × ℤ) → String → List (String × ℤ)
  | [], msg => [(msg, 1)]
  | (k, c) :: rest, msg =>
      if k = msg then (k, c + 1) :: rest else (k, c) :: bumpError rest msg

/-- `Stats.AddError` (`threshold.go`). -/
def Stats.AddError (s : Stats) (errorMessage : String) : Stats :=
  { s with errors := bumpError s.errors errorMessage }

/-- `Stats.AddStatusCode` (`threshold.go`): increment the counter for
the status-code class. -/
def Stats.AddStatusCode (s : Stats) (statusCode : ℤ) : Stats :=
  if 100 ≤ statusCode ∧ statusCode < 200 then
    { s with http1xxCount := s.http1xxCount + 1 }
  else if 200 ≤ statusCode ∧ statusCode < 300 then
    { s with http2xxCount := s.http2xxCount + 1 }
  else if 300 ≤ statusCode ∧ statusCode < 400 then
    { s with http3xxCount := s.http3xxCount + 1 }
  else if 400 ≤ statusCode ∧ statusCode < 500 then
    { s with http4xxCount := s.http4xxCount + 1 }
  else if 500 ≤ statusCode ∧ statusCode < 600 then
    { s with http5xxCount := s.http5xxCount + 1 }
  else
    { s with otherCount := s.otherCount + 1 }

/-- `Stats.AddBytes` (`threshold.go`). -/
def Stats.AddBytes (s : Stats) (bytes : ℤ) : Stats :=
  { s with totalBytes := s.totalBytes + bytes }

/-- `Stats.IncrementSuccess` (`threshold.go`). -/
def Stats.IncrementSuccess (s : Stats) : Stats :=
  { s with successCount := s.successCount + 1 }

/-- `Stats.IncrementFailure` (`threshold.go`). -/
def Stats.IncrementFailure (s : Stats) : Stats :=
  { s with failureCount := s.failureCount + 1 }

/-- Update the per-endpoint entry for `name`, inserting `init` first
when absent: the pure rendering of `GetOrCreateRequestStats` followed
by mutations through the returned pointer. -/
def updateEntry (m : List (String × RequestStats)) (name : String)
    (init : RequestStats) (f : RequestStats → RequestStats) :
    List (String × RequestStats) :=
  match m with
  | [] => [(name, f init)]
  | (k, v) :: rest =>
      if k = name then (k, f v) :: rest
      else (k, v) :: updateEntry rest name init f

/-- `Stats.GetOrCreateRequestStats` (`threshold.go`) combined with the
caller's locked field updates `f`. -/
def Stats.withRequestStats (s : Stats) (name url method : String)
    (f : RequestStats → RequestStats) : Stats :=
  { s with
    requestStats :=
      updateEntry s.requestStats name
        { name := name, url := url, method := method } f }

/-- Sum of `RequestCount` over all per-endpoint entries. -/
def Stats.requestCountSum (s : Stats) : ℤ :=
  (s.requestStats.map (fun p => p.2.requestCount)).sum

/-- `Stats.AverageResponseTime` (`threshold.go`):
`totalResponseTime / responseCount` when any samples exist, `0`
otherwise (float64 division modelled over `ℚ`). -/
def Stats.AverageResponseTime (s : Stats) : ℚ :=
  if 0 < s.responseCount then
    (s.totalResponseTime : ℚ) / (s.responseCount : ℚ)
  else 0

/-- `Stats.GetLatencyPercentile` (`threshold.go`): empty sample set
gives `0`; otherwise sort a copy ascending and read the entry at
`clamp(ceil(percentile/100 * n) - 1, 0, n-1)`.  `sort.Float64s` is
modelled by `List.insertionSort`: over `ℤ` every correct ascending sort
produces the same list.  `math.Ceil` over exact integer-valued inputs
is `Int.ceil` on `ℚ`. -/
def Stats.GetLatencyPercentile (s : Stats) (percentile : ℤ) : ℤ :=
  if s.responseTimes = [] then 0
  else
    let times := s.responseTimes.insertionSort (· ≤ ·)
    let n : ℤ := (times.length : ℤ)
    let index : ℤ := ⌈(percentile : ℚ) / 100 * (n : ℚ)⌉ - 1
    let index2 : ℤ := max 0 (min (n - 1) index)
    times.getD index2.toNat 0

/-- `Stats.StandardDeviation` (`threshold.go`), split so that the
radicand is computable: `0` for at most one sample, else
`sqrt(sum (x - avg)^2 / (n - 1))` with `avg = totalResponseTime /
responseCount`. -/
def Stats.varianceRadicand (s : Stats) : ℚ :=
  let avg : ℚ := (s.totalResponseTime : ℚ) / (s.responseCount : ℚ)
  let sum : ℚ :=
    s.responseTimes.foldl (fun (acc : ℚ) (t : ℤ) => acc + ((t : ℚ) - avg) ^ 2) 0
  sum / ((s.responseTimes.length : ℚ) - 1)

/-- `Stats.StandardDeviation` (`threshold.go`). -/
noncomputable def Stats.StandardDeviation (s : Stats) : ℝ :=
  if s.responseTimes.length ≤ 1 then 0
  else Real.sqrt (s.varianceRadicand : ℝ)

/-- Fold recording a list of response-time samples into a `Stats`,
modelling `n` sequential `AddResponseTime` calls. -/
def recordAll (s : Stats) (samples : List ℤ) : Stats :=
  samples.foldl Stats.AddResponseTime s

/-! ## Scenario executor (`pkg/benchmark/scenario.go`) -/

/-- The untyped JSON values a validation rule's expected field can hold
(Go `interface{}` after JSON unmarshalling, plus the in-memory `int`
case the source also handles). -/
inductive GoVal where
  | int (i : ℤ)
  | float (q : ℚ)
  | list (xs : List GoVal)
  | str (s : String)
  | bool (b : Bool)
  | null

/-- Go conversion `int(v)` of a `float64`: truncation toward zero. -/
def goTruncInt (q : ℚ) : ℤ :=
  if 0 ≤ q then ⌊q⌋ else ⌈q⌉

/-- `validateStatusCode` (`scenario.go`): a single `int`/`float64`
must equal the actual code, a `[]interface{}` matches when any
`int`/`float64` element does, and any other expected type returns
`true` (no validation when the type is unknown). -/
def validateStatusCode (actual : ℤ) (expected : GoVal) : Bool :=
  match expected with
  | .int v => actual = v
  | .float v => actual = goTruncInt v
  | .list xs =>
      xs.any (fun e =>
        match e with
        | .int v => actual = v
        | .float v => actual = goTruncInt v
        | _ => false)
  | _ => true

/-- The subset of `StepConfig` (`pkg/config/config.go`) the executor's
recording logic reads: the extraction map is an association list
(variable name, extraction expression), and `hasValidate` models
whether `step.Validate` is non-nil. -/
structure StepConfig where
  name : String
  url : String
  method : String
  extract : List (String × String) := []
  hasValidate : Bool := false

/-- The environment's answer for one step: which failure (if any) the
HTTP round trip produced, or the received response.  For a response,
`valErrs` is the result of `validateResponse` and `ext` gives the
`extractValue` result for each extraction expression; both depend only
on the response, so they are part of the oracle. -/
inductive HttpOutcome where
  | prepError (msg : String)
  | buildError (msg : String)
  | transportError (msg : String) (isContextErr : Bool) (rt : ℤ)
  | readError (msg : String) (status : ℤ) (rt : ℤ)
  | response (status : ℤ) (rt : ℤ) (bodyBytes : ℤ) (valErrs : List String)
      (ext : String → String)

/-- `StepResult` (`scenario.go`). -/
structure StepResult where
  stepName : String
  success : Bool
  statusCode : ℤ
  responseTime : ℤ
  error : String
  extractedVars : List (String × String)
  validationErrs : List String

/-- `executeStep` (`scenario.go`): thread the statistics updates and
build the `StepResult`, following the source's control flow.  Early
failures increment the global failure counter (adding to the error
table except for context cancellations) and return before any
per-endpoint update.  On a response: record status class, bytes and
latency; a non-empty validation error list marks the step failed and
tallies each error; extractions producing non-empty strings are
collected; finally the per-endpoint entry is updated and the global
success/failure counter incremented per the source's
`if result.Success` guards. -/
def executeStep (stats : Stats) (step : StepConfig) (out : HttpOutcome) :
    StepResult × Stats :=
  let result : StepResult :=
    { stepName := step.name, success := true, statusCode := 0,
      responseTime := 0, error := "", extractedVars := [],
      validationErrs := [] }
  match out with
  | .prepError msg =>
      ({ result with success := false, error := msg },
       (stats.IncrementFailure).AddError msg)
  | .buildError msg =>
      ({ result with success := false, error := msg },
       (stats.IncrementFailure).AddError msg)
  | .transportError msg isContextErr rt =>
      let stats := stats.IncrementFailure
      let stats := if isContextErr then stats else stats.AddError msg
      ({ result with success := false, error := msg, responseTime := rt },
       stats)
  | .readError msg status rt =>
      ({ result with
          success := false
          error := msg
          statusCode := status
          responseTime := rt },
       stats.IncrementFailure)
  | .response status rt bodyBytes valErrs ext =>
      let result := { result with statusCode := status, responseTime := rt }
      let stats := ((stats.AddStatusCode status).AddBytes bodyBytes).AddResponseTime rt
      let resStats :=
        if step.hasValidate then
          let result := { result with validationErrs := valErrs }
          if valErrs.isEmpty then (result, stats)
          else
            ({ result with success := false },
             valErrs.foldl
               (fun s verr => s.AddError ("[" ++ step.name ++ "] " ++ verr))
               stats)
        else (result, stats)
      let result := resStats.1
      let stats := resStats.2
      let extracted :=
        step.extract.foldl
          (fun acc p =>
            let value := ext p.2
            if value = "" then acc else acc ++ [(p.1, value)])
          []
      let result := { result with extractedVars := extracted }
      let upd := fun (rs : RequestStats) =>
        { rs with requestCount := rs.requestCount + 1,
                  totalLatency := rs.totalLatency + rt }
      if result.success && decide (200 ≤ status) && decide (status < 300) then
        (result,
         ((stats.withRequestStats step.name step.url step.method
             (fun rs => let rs := upd rs;
               { rs with successCount := rs.successCount + 1 })).IncrementSuccess))
      else
        let stats :=
          stats.withRequestStats step.name step.url step.method
            (fun rs => let rs := upd rs;
              { rs with failureCount := rs.failureCount + 1 })
        if result.success then
          ({ result with success := false }, stats.IncrementFailure)
        else (result, stats)

/-- `ScenarioResult` (`scenario.go`), with the variable map as an
association list. -/
structure ScenarioResult where
  success : Bool
  stepResults : List StepResult
  vars : List (String × String)

/-- Go map assignment `m[k] = v` on an association list: overwrite the
first binding of `k`, or append a new one. -/
def setVar : List (String × String) → String → String → List (String × String)
  | [], k, v => [(k, v)]
  | (k', v') :: rest, k, v =>
      if k' = k then (k', v) :: rest else (k', v') :: setVar rest k v

/-- Merge a step's extracted variables into the scenario variable map
(the `for k, v := range stepResult.ExtractedVars` loop). -/
def mergeVars (vars : List (String × String))
    (extracted : List (String × String)) : List (String × String) :=
  extracted.foldl (fun m kv => setVar m kv.1 kv.2) vars

/-- Loop body of `ExecuteScenario` over the remaining steps, threading
the accumulated result and statistics.  Each step's outcome is supplied
alongside its configuration. -/
def execSteps : List (StepConfig × HttpOutcome) → ScenarioResult × Stats →
    ScenarioResult × Stats
  | [], acc => acc
  | (step, out) :: rest, (res, stats) =>
      let sr := executeStep stats step out
      let stepResult := sr.1
      let res :=
        { res with
          stepResults := res.stepResults ++ [stepResult]
          vars := mergeVars res.vars stepResult.extractedVars
          success := if stepResult.success then res.success else false }
      execSteps rest (res, sr.2)

/-- `ExecuteScenario` (`scenario.go`) for an instance that is never
interrupted by cancellation: start from a copy of the configured
variables with `Success = true`, then run every step in order. -/
def ExecuteScenario (steps : List (StepConfig × HttpOutcome))
    (initVars : List (String × String)) (stats : Stats) :
    ScenarioResult × Stats :=
  execSteps steps
    ({ success := true, stepResults := [], vars := initVars }, stats)

/-- Scenario-mode finalisation of one completed scenario (`RunScenario`
in the runner source): `TotalRequests = completedScenarios *
stepsPerScenario` with one completed scenario. -/
def RunScenarioOnce (steps : List (StepConfig × HttpOutcome))
    (initVars : List (String × String)) : Stats :=
  let r := ExecuteScenario steps initVars NewStats
  { r.2 with totalRequests := 1 * (steps.length : ℤ) }

/-! ## Token-bucket rate limiter -/

/-- `RateLimiter` state: `tokens` models the number of values buffered
in the token channel, `capacity` its buffer size, `interval` the refill
ticker period in nanoseconds. -/
structure RateLimiter where
  rate : ℤ
  tokens : ℕ
  capacity : ℕ
  interval : ℤ
  deriving Repr, DecidableEq

/-- The construction-time fill loop: `n` iterations of a non-blocking
send into a channel currently holding `t` of `cap` tokens. -/
def fillTokens : ℕ → ℕ → ℕ → ℕ
  | 0, _, t => t
  | n + 1, cap, t => fillTokens n cap (if t < cap then t + 1 else t)

/-- `NewRateLimiter` (rate-limiter source): `nil` (here `none`) for a
non-positive rate; otherwise a channel of capacity `2 * rate`, a fill
loop of `rate` non-blocking sends, and a ticker period of
`time.Second / rate` in nanoseconds (Go duration division truncates)
raised to `time.Millisecond` when smaller. -/
def NewRateLimiter (ratePerSecond : ℤ) : Option RateLimiter :=
  if ratePerSecond ≤ 0 then none
  else
    let cap := (ratePerSecond * 2).toNat
    let tokens := fillTokens ratePerSecond.toNat cap 0
    let interval0 := 1000000000 / ratePerSecond
    let interval := if interval0 < 1000000 then 1000000 else interval0
    some { rate := ratePerSecond, tokens := tokens, capacity := cap,
           interval := interval }

/-- One refill tick: add a token only when the buffer is not full
(excess ticks are discarded). -/
def RateLimiter.refillTick (rl : RateLimiter) : RateLimiter :=
  if rl.tokens < rl.capacity then { rl with tokens := rl.tokens + 1 }
  else rl

/-- `Wait` (rate-limiter source) in the absence of cancellation:
a `nil` receiver returns `true` immediately without touching any
state; otherwise a token is consumed when available, and the call
blocks (`none`) when the bucket is empty. -/
def RateLimiterWait : Option RateLimiter → Option (Bool × Option RateLimiter)
  | none => some (true, none)
  | some rl =>
      if 0 < rl.tokens then
        some (true, some { rl with tokens := rl.tokens - 1 })
      else none

/-! ## Weighted request selector -/

/-- The fields of `RequestConfig` (`pkg/config/config.go`) the selector
reads. -/
structure RequestConfig where
  name : String
  url : String
  method : String
  weight : ℤ := 1
  deriving Repr, DecidableEq

/-- `WeightedRequestSelector` (selector source). -/
structure WeightedRequestSelector where
  requests : List RequestConfig
  totalWeight : ℤ
  cumulativeWeights : List ℤ
  deriving Repr, DecidableEq

/-- The constructor's scan: running cumulative weights starting from
`acc`. -/
def cumulativeFrom (acc : ℤ) : List RequestConfig → List ℤ
  | [] => []
  | req :: rest => (acc + req.weight) :: cumulativeFrom (acc + req.weight) rest

/-- `NewWeightedRequestSelector` (selector source): precompute the
cumulative-weight array; `totalWeight` is the final cumulative value
(the sum of all weights, `0` for an empty list). -/
def NewWeightedRequestSelector (requests : List RequestConfig) :
    WeightedRequestSelector :=
  { requests := requests
    totalWeight := (requests.map (fun r => r.weight)).sum
    cumulativeWeights := cumulativeFrom 0 requests }

/-- `Select` (selector source), with the random draw `r` (the value of
`rand.Intn(totalWeight)`) passed explicitly: a single-definition list
returns its definition without reading `r`; otherwise scan the
cumulative weights for the first index with `r < cumWeight`, falling
back to the last definition. -/
def WeightedRequestSelector.Select (s : WeightedRequestSelector) (r : ℤ) :
    Option RequestConfig :=
  if s.requests.length = 1 then s.requests[0]?
  else
    match (s.requests.zip s.cumulativeWeights).find? (fun p => r < p.2) with
    | some p => some p.1
    | none => s.requests.getLast?

/-- Modelled from the spec: "return the first definition whose
cumulative weight exceeds the draw" as a direct recursion, rebasing the
draw by each skipped weight. -/
def specFirstExceeding : List RequestConfig → ℤ → Option RequestConfig
  | [], _ => none
  | req :: rest, r =>
      if r < req.weight then some req
      else specFirstExceeding rest (r - req.weight)

/-! ## Threshold evaluator (`pkg/benchmark/threshold.go`) -/

/-- `ThresholdResult` (`threshold.go`). -/
structure ThresholdResult where
  name : String
  passed : Bool
  expected : String
  actual : String
  message : String
  deriving Repr, DecidableEq

/-- `ThresholdResults` (`threshold.go`). -/
structure ThresholdResults where
  results : List ThresholdResult
  passed : Bool
  deriving Repr, DecidableEq

/-- `ThresholdConfig` (`pkg/config/config.go`). -/
structure ThresholdConfig where
  maxErrorRate : ℚ := 0
  maxAvgLatency : String := ""
  maxP50Latency : String := ""
  maxP75Latency : String := ""
  maxP90Latency : String := ""
  maxP99Latency : String := ""
  minRequestsPerSecond : ℚ := 0
  maxRequestsPerSecond : ℚ := 0
  requestsPerSecond : ℚ := 0

/-- `HasThresholds` (`pkg/config/config.go`). -/
def ThresholdConfig.HasThresholds (t : ThresholdConfig) : Bool :=
  decide (0 < t.maxErrorRate) || decide (t.maxAvgLatency ≠ "") ||
  decide (t.maxP50Latency ≠ "") || decide (t.maxP75Latency ≠ "") ||
  decide (t.maxP90Latency ≠ "") || decide (t.maxP99Latency ≠ "") ||
  decide (0 < t.minRequestsPerSecond) || decide (0 < t.maxRequestsPerSecond)

/-- Go `%.2f` formatting of a non-negative rational whose doubled
centesimal value is exact at the inputs exercised here: round to
hundredths and print with two decimals. -/
def fmtF2 (q : ℚ) : String :=
  let scaled : ℤ := ⌊q * 100 + 1 / 2⌋
  let ip := scaled / 100
  let fp := (scaled % 100).toNat
  toString ip ++ "." ++ (if fp < 10 then "0" else "") ++ toString fp

/-- `formatResultMessage` (`threshold.go`). -/
def formatResultMessage (name : String) (passed : Bool)
    (actual expected : String) : String :=
  (if passed then "✓ PASS" else "✗ FAIL") ++ ": " ++ name ++
    " (actual: " ++ actual ++ ", expected: " ++ expected ++ ")"

/-- `checkErrorRate` (`threshold.go`): error rate is
`failureCount / (successCount + failureCount)` (or `0` with no
requests); passes when it does not exceed the configured maximum;
values rendered as `%.2f%%` of their percentage. -/
def checkErrorRate (stats : Stats) (maxErrorRate : ℚ) : ThresholdResult :=
  let totalRequests := stats.successCount + stats.failureCount
  let actualErrorRate : ℚ :=
    if 0 < totalRequests then (stats.failureCount : ℚ) / (totalRequests : ℚ)
    else 0
  let passed := decide (actualErrorRate ≤ maxErrorRate)
  { name := "Max Error Rate"
    passed := passed
    expected := "≤ " ++ fmtF2 (maxErrorRate * 100) ++ "%"
    actual := fmtF2 (actualErrorRate * 100) ++ "%"
    message := formatResultMessage "Error Rate" passed
      (fmtF2 (actualErrorRate * 100) ++ "%")
      ("≤ " ++ fmtF2 (maxErrorRate * 100) ++ "%") }

/-- `formatMicroseconds` (`threshold.go`). -/
def formatMicroseconds (micros : ℤ) : String :=
  if micros < 1000 then toString micros ++ "µs"
  else if micros < 1000000 then fmtF2 ((micros : ℚ) / 1000) ++ "ms"
  else fmtF2 ((micros : ℚ) / 1000000) ++ "s"

/-- `checkAvgLatency` (`threshold.go`), with the external duration
parser (`time.ParseDuration`, not part of this repository) supplied as
`parseDur`; `ParseLatency` maps `""` to `0` and otherwise delegates. -/
def checkAvgLatency (parseDur : String → Option ℤ) (stats : Stats)
    (maxLatencyStr : String) : Option ThresholdResult :=
  let maxLatencyMicros? : Option ℤ :=
    if maxLatencyStr = "" then some 0 else parseDur maxLatencyStr
  match maxLatencyMicros? with
  | none => none
  | some maxLatencyMicros =>
      let avg := stats.AverageResponseTime
      let passed := decide (⌊avg⌋ ≤ maxLatencyMicros)
      some { name := "Max Avg Latency"
             passed := passed
             expected := "≤ " ++ maxLatencyStr
             actual := formatMicroseconds ⌊avg⌋
             message := formatResultMessage "Avg Latency" passed
               (formatMicroseconds ⌊avg⌋) ("≤ " ++ maxLatencyStr) }

/-- `checkPercentileLatency` (`threshold.go`), duration parser supplied
as in `checkAvgLatency`. -/
def checkPercentileLatency (parseDur : String → Option ℤ) (stats : Stats)
    (percentile : ℤ) (maxLatencyStr : String) : Option ThresholdResult :=
  let maxLatencyMicros? : Option ℤ :=
    if maxLatencyStr = "" then some 0 else parseDur maxLatencyStr
  match maxLatencyMicros? with
  | none => none
  | some maxLatencyMicros =>
      let actualLatencyMicros := stats.GetLatencyPercentile percentile
      let passed := decide (actualLatencyMicros ≤ maxLatencyMicros)
      let nm := "Max P" ++ toString percentile ++ " Latency"
      some { name := nm
             passed := passed
             expected := "≤ " ++ maxLatencyStr
             actual := formatMicroseconds actualLatencyMicros
             message := formatResultMessage
               ("P" ++ toString percentile ++ " Latency") passed
               (formatMicroseconds actualLatencyMicros)
               ("≤ " ++ maxLatencyStr) }

/-- `checkMinRPS` (`threshold.go`). -/
def checkMinRPS (cfgRPS minRPS : ℚ) : ThresholdResult :=
  let passed := decide (minRPS ≤ cfgRPS)
  { name := "Min Requests/sec"
    passed := passed
    expected := "≥ " ++ fmtF2 minRPS
    actual := fmtF2 cfgRPS
    message := formatResultMessage "Requests/sec" passed (fmtF2 cfgRPS)
      ("≥ " ++ fmtF2 minRPS) }

/-- `checkMaxRPS` (`threshold.go`). -/
def checkMaxRPS (cfgRPS maxRPS : ℚ) : ThresholdResult :=
  let passed := decide (cfgRPS ≤ maxRPS)
  { name := "Max Requests/sec"
    passed := passed
    expected := "≤ " ++ fmtF2 maxRPS
    actual := fmtF2 cfgRPS
    message := formatResultMessage "Requests/sec" passed (fmtF2 cfgRPS)
      ("≤ " ++ fmtF2 maxRPS) }

/-- Append one result and fold its pass flag into the overall flag. -/
def pushResult (acc : ThresholdResults) (r : ThresholdResult) :
    ThresholdResults :=
  { results := acc.results ++ [r]
    passed := if r.passed then acc.passed else false }

/-- `EvaluateThresholds` (`threshold.go`): evaluate exactly the
configured criteria in source order, short-circuiting to an error when
a latency string fails to parse; `rps` is the finished
`Stats.RequestsPerSecond` value read by the RPS checks. -/
def EvaluateThresholds (parseDur : String → Option ℤ) (stats : Stats)
    (rps : ℚ) (thresholds : ThresholdConfig) : Option ThresholdResults :=
  let base : ThresholdResults := { results := [], passed := true }
  if ¬ thresholds.HasThresholds then some base
  else
    let acc := base
    let acc :=
      if 0 < thresholds.maxErrorRate then
        pushResult acc (checkErrorRate stats thresholds.maxErrorRate)
      else acc
    let step2 :=
      if thresholds.maxAvgLatency ≠ "" then
        (checkAvgLatency parseDur stats thresholds.maxAvgLatency).map
          (pushResult acc)
      else some acc
    let step3 := step2.bind fun acc =>
      if thresholds.maxP50Latency ≠ "" then
        (checkPercentileLatency parseDur stats 50 thresholds.maxP50Latency).map
          (pushResult acc)
      else some acc
    let step4 := step3.bind fun acc =>
      if thresholds.maxP75Latency ≠ "" then
        (checkPercentileLatency parseDur stats 75 thresholds.maxP75Latency).map
          (pushResult acc)
      else some acc
    let step5 := step4.bind fun acc =>
      if thresholds.maxP90Latency ≠ "" then
        (checkPercentileLatency parseDur stats 90 thresholds.maxP90Latency).map
          (pushResult acc)
      else some acc
    let step6 := step5.bind fun acc =>
      if thresholds.maxP99Latency ≠ "" then
        (checkPercentileLatency parseDur stats 99 thresholds.maxP99Latency).map
          (pushResult acc)
      else some acc
    let step7 := step6.map fun acc =>
      if 0 < thresholds.minRequestsPerSecond then
        pushResult acc (checkMinRPS rps thresholds.minRequestsPerSecond)
      else acc
    step7.map fun acc =>
      if 0 < thresholds.maxRequestsPerSecond then
        pushResult acc (checkMaxRPS rps thresholds.maxRequestsPerSecond)
      else acc

/-! ## Theorems -/

/-- An expected status value of a type the validator does not
recognise: neither an integer, a float, nor a list. -/
def unrecognizedStatusValue (v : GoVal) : Bool :=
  match v with
  | .int _ => false
  | .float _ => false
  | .list _ => false
  | _ => true

/-- C9: for every actual status code, a status-code validation rule
whose expected value is of an unrecognized type (neither an integer, a
float, nor a list) passes: `validateStatusCode` returns `true`
regardless of the actual status code. -/
theorem validateStatusCode_unrecognized_passes (actual : ℤ) (v : GoVal)
    (h : unrecognizedStatusValue v = true) :
    validateStatusCode actual v = true := by
  cases v <;> simp_all [unrecognizedStatusValue, validateStatusCode]

/-- Witness for C9 at a concrete mistyped assertion (`"200"` as a
string) and actual status `404`. -/
theorem validateStatusCode_unrecognized_passes_witness :
    unrecognizedStatusValue (GoVal.str "200") = true ∧
      validateStatusCode 404 (GoVal.str "200") = true :=
  ⟨by decide,
   validateStatusCode_unrecognized_passes 404 (GoVal.str "200") (by decide)⟩

/-- Evaluation of `checkErrorRate` at 2 failures out of 100. -/
theorem checkErrorRate_2_of_100 :
    checkErrorRate { NewStats with successCount := 98, failureCount := 2 }
      (1 / 100) =
      { name := "Max Error Rate", passed := false, expected := "≤ 1.00%",
        actual := "2.00%",
        message :=
          "✗ FAIL: Error Rate (actual: 2.00%, expected: ≤ 1.00%)" } := by
  have hle : ¬ ((2 : ℚ) / 100 ≤ 1 / 100) := by norm_num
  have hf2 : fmtF2 (2 : ℚ) = "2.00" := by
    have h : (⌊(2 : ℚ) * 100 + 1 / 2⌋ : ℤ) = 200 := by norm_num
    simp only [fmtF2, h]
    rfl
  have hf1 : fmtF2 (1 : ℚ) = "1.00" := by
    have h : (⌊(1 : ℚ) * 100 + 1 / 2⌋ : ℤ) = 100 := by norm_num
    simp only [fmtF2, h]
    rfl
  simp only [checkErrorRate, formatResultMessage]
  norm_num [hle, hf2, hf1]
  exact ⟨rfl, rfl, rfl⟩

/-- C8: a `Stats` with `failureCount = 2`, `successCount = 98`
evaluated against `maxErrorRate = 0.01` yields exactly one result,
named "Max Error Rate", with `Passed = false`, actual `"2.00%"` and
expected `"≤ 1.00%"`, and the overall `ThresholdResults.Passed` is
`false` — for any duration parser and any requests-per-second value
(neither is consulted by this configuration). -/
theorem evaluateThresholds_errorRate_example
    (parseDur : String → Option ℤ) (rps : ℚ) :
    EvaluateThresholds parseDur
        { NewStats with successCount := 98, failureCount := 2 } rps
        { maxErrorRate := 1 / 100 } =
      some { results := [{ name := "Max Error Rate", passed := false,
                           expected := "≤ 1.00%", actual := "2.00%",
                           message :=
                             "✗ FAIL: Error Rate (actual: 2.00%, expected: ≤ 1.00%)" }],
             passed := false } := by
  have hht : ThresholdConfig.HasThresholds { maxErrorRate := 1 / 100 } = true := by
    simp only [ThresholdConfig.HasThresholds]
    norm_num
  simp only [EvaluateThresholds, hht, checkErrorRate_2_of_100]
  norm_num [pushResult]

/-- C1 (failing input): a completed scenario-mode run of one scenario
with one step whose HTTP response is `200` but whose validation rules
fail (one validation error).  The per-endpoint entry records the
attempt (`RequestCount` sum is 1, matching `TotalRequests`), but
neither the global success counter nor the global failure counter is
incremented, so `successCount + failureCount = 0 ≠ 1 = totalRequests`:
the claimed invariant fails on the code. -/
theorem scenario_validation_failure_skips_counters :
    (RunScenarioOnce
        [({ name := "s", url := "u", method := "GET", hasValidate := true },
          HttpOutcome.response 200 5000 10
            ["body does not contain: ok"] (fun _ => ""))] []).successCount = 0 ∧
    (RunScenarioOnce
        [({ name := "s", url := "u", method := "GET", hasValidate := true },
          HttpOutcome.response 200 5000 10
            ["body does not contain: ok"] (fun _ => ""))] []).failureCount = 0 ∧
    (RunScenarioOnce
        [({ name := "s", url := "u", method := "GET", hasValidate := true },
          HttpOutcome.response 200 5000 10
            ["body does not contain: ok"] (fun _ => ""))] []).totalRequests = 1 ∧
    (RunScenarioOnce
        [({ name := "s", url := "u", method := "GET", hasValidate := true },
          HttpOutcome.response 200 5000 10
            ["body does not contain: ok"] (fun _ => ""))] []).requestCountSum = 1 := by
  refine ⟨rfl, rfl, rfl, rfl⟩

/-- The fill loop reaches `min (t + n) cap` when starting from a token
count within capacity. -/
theorem fillTokens_eq (n : ℕ) : ∀ (cap t : ℕ), t ≤ cap →
    fillTokens n cap t = min (t + n) cap := by
  induction n with
  | zero => intro cap t ht; simp [fillTokens]; omega
  | succ n ih =>
      intro cap t ht
      simp only [fillTokens]
      by_cases h : t < cap
      · rw [if_pos h, ih cap (t + 1) (by omega)]
        omega
      · rw [if_neg h, ih cap t ht]
        omega

/-- C4: `NewRateLimiter` with rate `R > 0` builds a token buffer of
capacity `2R` pre-filled with exactly `R` tokens and a refill interval
of `max(1ms, 1s/R)` (in nanoseconds, `1s/R` truncated as Go duration
division does); a refill tick adds one token exactly when the buffer is
not full; and for `R ≤ 0` no limiter is created and `Wait` on the `nil`
limiter returns success immediately. -/
theorem rateLimiter_spec (R : ℤ) :
    (0 < R →
      NewRateLimiter R =
        some { rate := R, tokens := R.toNat, capacity := (R * 2).toNat,
               interval := max 1000000 (1000000000 / R) }) ∧
    (∀ rl : RateLimiter, rl.tokens < rl.capacity →
      rl.refillTick.tokens = rl.tokens + 1) ∧
    (∀ rl : RateLimiter, rl.capacity ≤ rl.tokens → rl.refillTick = rl) ∧
    (R ≤ 0 →
      NewRateLimiter R = none ∧ RateLimiterWait none = some (true, none)) := by
  refine ⟨?_, ?_, ?_, ?_⟩
  · intro hR
    have hnot : ¬ R ≤ 0 := not_le.mpr hR
    simp only [NewRateLimiter, if_neg hnot]
    have hcap : R.toNat ≤ (R * 2).toNat := by omega
    have hfill : fillTokens R.toNat (R * 2).toNat 0 = R.toNat := by
      rw [fillTokens_eq _ _ _ (Nat.zero_le _)]
      omega
    have hint :
        (if 1000000000 / R < 1000000 then (1000000 : ℤ)
         else 1000000000 / R) = max 1000000 (1000000000 / R) := by
      rcases lt_or_le (1000000000 / R) 1000000 with h | h
      · rw [if_pos h, max_eq_left (le_of_lt h)]
      · rw [if_neg (not_lt.mpr h), max_eq_right h]
    rw [hfill, hint]
  · intro rl h
    simp [RateLimiter.refillTick, h]
  · intro rl h
    simp [RateLimiter.refillTick, not_lt.mpr h]
  · intro hR
    exact ⟨by simp [NewRateLimiter, hR], rfl⟩

/-- Witness for C4 at `R = 5` and `R = 0`. -/
theorem rateLimiter_spec_witness :
    ((0 : ℤ) < 5 ∧
      NewRateLimiter 5 =
        some { rate := 5, tokens := (5 : ℤ).toNat,
               capacity := ((5 : ℤ) * 2).toNat,
               interval := max 1000000 (1000000000 / 5) }) ∧
    ((0 : ℤ) ≤ 0 ∧
      NewRateLimiter 0 = none ∧ RateLimiterWait none = some (true, none)) :=
  ⟨⟨by decide, (rateLimiter_spec 5).1 (by decide)⟩,
   ⟨le_refl 0, (rateLimiter_spec 0).2.2.2 (le_refl 0)⟩⟩

/-- Every outcome branch of `executeStep` labels its result with the
step's configured name. -/
theorem executeStep_stepName (stats : Stats) (step : StepConfig)
    (out : HttpOutcome) : (executeStep stats step out).1.stepName = step.name := by
  cases out <;> simp only [executeStep] <;> (repeat' split) <;> rfl

/-- Shape of the `ExecuteScenario` loop from an arbitrary accumulated
result: one appended `StepResult` per remaining step, in step order,
and the success flag ANDed with every appended step's flag. -/
theorem execSteps_shape (steps : List (StepConfig × HttpOutcome)) :
    ∀ (res : ScenarioResult) (stats : Stats), ∃ new : List StepResult,
      (execSteps steps (res, stats)).1.stepResults = res.stepResults ++ new ∧
      new.length = steps.length ∧
      new.map (fun sr => sr.stepName) = steps.map (fun p => p.1.name) ∧
      (execSteps steps (res, stats)).1.success =
        (res.success && new.all (fun sr => sr.success)) := by
  induction steps with
  | nil =>
      intro res stats
      exact ⟨[], by simp [execSteps]⟩
  | cons head rest ih =>
      intro res stats
      obtain ⟨step, out⟩ := head
      have hunfold : execSteps ((step, out) :: rest) (res, stats) =
          execSteps rest
            ({ res with
                stepResults := res.stepResults ++ [(executeStep stats step out).1]
                vars := mergeVars res.vars (executeStep stats step out).1.extractedVars
                success := if (executeStep stats step out).1.success then res.success
                           else false },
             (executeStep stats step out).2) := rfl
      obtain ⟨new', h1, h2, h3, h4⟩ :=
        ih { res with
              stepResults := res.stepResults ++ [(executeStep stats step out).1]
              vars := mergeVars res.vars (executeStep stats step out).1.extractedVars
              success := if (executeStep stats step out).1.success then res.success
                         else false }
          (executeStep stats step out).2
      refine ⟨(executeStep stats step out).1 :: new', ?_, ?_, ?_, ?_⟩
      · rw [hunfold, h1]
        simp
      · simp [h2]
      · simp [h3, executeStep_stepName]
      · rw [hunfold, h4]
        by_cases hs : (executeStep stats step out).1.success <;> simp [hs]

/-- C3: an uninterrupted scenario instance produces one `StepResult`
per configured step, in step order (step names match), even when
earlier steps fail, and the scenario's `Success` flag is the
conjunction of all step `Success` flags. -/
theorem executeScenario_runs_all_steps (steps : List (StepConfig × HttpOutcome))
    (initVars : List (String × String)) (stats : Stats) :
    (ExecuteScenario steps initVars stats).1.stepResults.length = steps.length ∧
    (ExecuteScenario steps initVars stats).1.stepResults.map (fun sr => sr.stepName) =
      steps.map (fun p => p.1.name) ∧
    (ExecuteScenario steps initVars stats).1.success =
      (ExecuteScenario steps initVars stats).1.stepResults.all
        (fun sr => sr.success) := by
  obtain ⟨new, h1, h2, h3, h4⟩ :=
    execSteps_shape steps
      { success := true, stepResults := [], vars := initVars } stats
  unfold ExecuteScenario
  rw [h1, h4]
  simp [h2, h3]

/-- The scan over the precomputed cumulative-weight array, rebased at
accumulator `acc`, agrees with the spec's first-exceeding recursion on
the draw shifted by `acc`. -/
theorem find_cumulative (reqs : List RequestConfig) :
    ∀ (acc r : ℤ),
      ((reqs.zip (cumulativeFrom acc reqs)).find?
          (fun p => r < p.2)).map Prod.fst =
        specFirstExceeding reqs (r - acc) := by
  induction reqs with
  | nil => intro acc r; simp [cumulativeFrom, specFirstExceeding]
  | cons req rest ih =>
      intro acc r
      simp only [cumulativeFrom, List.zip_cons_cons, List.find?_cons,
        specFirstExceeding]
      by_cases h : r < acc + req.weight
      · rw [if_pos (by omega : r - acc < req.weight)]
        simp [h]
      · rw [if_neg (by omega : ¬ r - acc < req.weight)]
        have hd : (decide (r < acc + req.weight)) = false := by
          simpa using h
        rw [hd]
        rw [ih (acc + req.weight) r]
        congr 1
        omega

/-- A draw below the total weight always has a first-exceeding
definition. -/
theorem specFirstExceeding_isSome (reqs : List RequestConfig) :
    ∀ r : ℤ, 0 ≤ r → r < (reqs.map (fun q => q.weight)).sum →
      (specFirstExceeding reqs r).isSome = true := by
  induction reqs with
  | nil => intro r h0 h1; simp at h1; omega
  | cons req rest ih =>
      intro r h0 h1
      simp only [specFirstExceeding]
      by_cases h : r < req.weight
      · simp [h]
      · rw [if_neg h]
        refine ih (r - req.weight) (by omega) ?_
        simp only [List.map_cons, List.sum_cons] at h1
        omega

/-- C5: for positive weights and a draw `r` uniform in
`[0, totalWeight)`, `Select` returns the first definition whose
cumulative weight exceeds the draw; and for a single-definition list
`Select` returns that definition for every draw value (the draw is
never consulted). -/
theorem select_matches_spec :
    (∀ (requests : List RequestConfig) (r : ℤ),
      (∀ req ∈ requests, 0 < req.weight) → 0 ≤ r →
      r < (NewWeightedRequestSelector requests).totalWeight →
      (NewWeightedRequestSelector requests).Select r =
        specFirstExceeding requests r) ∧
    (∀ (req : RequestConfig) (r : ℤ),
      (NewWeightedRequestSelector [req]).Select r = some req) := by
  constructor
  · intro requests r _hpos h0 hlt
    have htot : (NewWeightedRequestSelector requests).totalWeight =
        (requests.map (fun q => q.weight)).sum := rfl
    rw [htot] at hlt
    have hfind :
        (((NewWeightedRequestSelector requests).requests.zip
            (NewWeightedRequestSelector requests).cumulativeWeights).find?
          (fun p => r < p.2)).map Prod.fst = specFirstExceeding requests r := by
      simpa using find_cumulative requests 0 r
    have hsome := specFirstExceeding_isSome requests r h0 hlt
    obtain ⟨x, hx⟩ := Option.isSome_iff_exists.mp hsome
    unfold WeightedRequestSelector.Select
    by_cases hlen : (NewWeightedRequestSelector requests).requests.length = 1
    · rw [if_pos hlen]
      have hlen' : requests.length = 1 := hlen
      obtain ⟨req, rfl⟩ := List.length_eq_one.mp hlen'
      have hw : r < req.weight := by
        simpa using hlt
      simp [specFirstExceeding, hw, NewWeightedRequestSelector]
    · rw [if_neg hlen]
      rw [hx] at hfind
      cases hf : (((NewWeightedRequestSelector requests).requests.zip
          (NewWeightedRequestSelector requests).cumulativeWeights).find?
            (fun p => r < p.2)) with
      | none => rw [hf] at hfind; simp at hfind
      | some p =>
          rw [hf] at hfind
          simp at hfind
          simp [hfind, hx]
  · intro req r
    rfl

/-- Witness for C5: weights `[50, 30, 20]`, draw `79` selects the
second definition. -/
theorem select_matches_spec_witness :
    (∀ req ∈ [{ name := "a", url := "", method := "GET", weight := 50 },
              { name := "b", url := "", method := "GET", weight := 30 },
              { name := "c", url := "", method := "GET",
                weight := 20 : RequestConfig }], 0 < req.weight) ∧
    (0 : ℤ) ≤ 79 ∧
    (79 : ℤ) < (NewWeightedRequestSelector
        [{ name := "a", url := "", method := "GET", weight := 50 },
         { name := "b", url := "", method := "GET", weight := 30 },
         { name := "c", url := "", method := "GET", weight := 20 }]).totalWeight ∧
    (NewWeightedRequestSelector
        [{ name := "a", url := "", method := "GET", weight := 50 },
         { name := "b", url := "", method := "GET", weight := 30 },
         { name := "c", url := "", method := "GET", weight := 20 }]).Select 79 =
      specFirstExceeding
        [{ name := "a", url := "", method := "GET", weight := 50 },
         { name := "b", url := "", method := "GET", weight := 30 },
         { name := "c", url := "", method := "GET", weight := 20 }] 79 :=
  ⟨by decide, by decide, by decide,
   select_matches_spec.1 _ 79 (by decide) (by decide) (by decide)⟩

/-- The spec's percentile index: `clamp(ceil(p/100 * n) - 1, 0, n-1)`,
written over `ℕ` (truncated subtraction realises the lower clamp). -/
def specIndex (p n : ℕ) : ℕ :=
  min (n - 1) ((p * n + 99) / 100 - 1)

/-- Ceiling of `a / 100` over `ℚ` as natural division. -/
theorem ceil_div100 (a : ℕ) :
    ⌈(a : ℚ) / 100⌉ = (((a + 99) / 100 : ℕ) : ℤ) := by
  rw [Int.ceil_eq_iff]
  constructor
  · have hZ : ((((a + 99) / 100 : ℕ) : ℤ) - 1) * 100 < (a : ℤ) := by omega
    rw [lt_div_iff (by norm_num : (0 : ℚ) < 100)]
    exact_mod_cast hZ
  · have hZ : (a : ℤ) ≤ (((a + 99) / 100 : ℕ) : ℤ) * 100 := by omega
    rw [div_le_iff (by norm_num : (0 : ℚ) < 100)]
    exact_mod_cast hZ

/-- The source's clamped index (over `ℤ`, with `math.Ceil`) equals the
spec's `ℕ` index formula. -/
theorem clampIndex_eq (p : ℤ) (n : ℕ) (hp : 0 ≤ p) :
    (max 0 (min ((n : ℤ) - 1) (⌈(p : ℚ) / 100 * ((n : ℤ) : ℚ)⌉ - 1))).toNat =
      specIndex p.toNat n := by
  obtain ⟨m, rfl⟩ : ∃ m : ℕ, p = (m : ℤ) :=
    ⟨p.toNat, (Int.toNat_of_nonneg hp).symm⟩
  have hpn : ((m : ℤ) : ℚ) * ((n : ℤ) : ℚ) = ((m * n : ℕ) : ℚ) := by
    push_cast
    ring
  rw [div_mul_eq_mul_div, hpn, ceil_div100, specIndex, Int.toNat_natCast]
  generalize (m * n : ℕ) = a
  omega

/-- C2: `GetLatencyPercentile` returns `0` on an empty sample set, and
otherwise the entry of the ascending sort of the samples at index
`clamp(ceil(p/100 * n) - 1, 0, n-1)` — stated against any ascending
reordering `l` of the samples. -/
theorem getLatencyPercentile_spec (s : Stats) (p : ℤ)
    (hp0 : 0 ≤ p) (hp1 : p ≤ 100) :
    (s.responseTimes = [] → s.GetLatencyPercentile p = 0) ∧
    (∀ l : List ℤ, s.responseTimes.Perm l → l.Sorted (· ≤ ·) →
      s.GetLatencyPercentile p =
        l.getD (specIndex p.toNat s.responseTimes.length) 0) := by
  constructor
  · intro h
    simp [Stats.GetLatencyPercentile, h]
  · intro l hperm hsort
    by_cases hnil : s.responseTimes = []
    · have hl : l = [] := by
        have := hperm.length_eq
        rw [hnil] at this
        exact List.length_eq_zero.mp this.symm
      simp [Stats.GetLatencyPercentile, hnil, hl]
    · have hsorted_eq : s.responseTimes.insertionSort (· ≤ ·) = l := by
        refine List.eq_of_perm_of_sorted
          ((List.perm_insertionSort _ _).trans hperm) ?_ hsort
        exact List.sorted_insertionSort _ _
      simp only [Stats.GetLatencyPercentile, if_neg hnil, hsorted_eq]
      rw [hperm.length_eq, clampIndex_eq p l.length hp0]

/-- Witness for C2: samples `[30, 10, 20]` at `p = 50` read index 1 of
the ascending sort `[10, 20, 30]`. -/
theorem getLatencyPercentile_spec_witness :
    (0 : ℤ) ≤ 50 ∧ (50 : ℤ) ≤ 100 ∧
    (recordAll NewStats [30, 10, 20]).responseTimes.Perm
      ([10, 20, 30] : List ℤ) ∧
    List.Sorted (· ≤ ·) ([10, 20, 30] : List ℤ) ∧
    (recordAll NewStats [30, 10, 20]).GetLatencyPercentile 50 =
      ([10, 20, 30] : List ℤ).getD
        (specIndex (50 : ℤ).toNat
          (recordAll NewStats [30, 10, 20]).responseTimes.length) 0 :=
  ⟨by decide, by decide, by decide, by decide,
   (getLatencyPercentile_spec _ 50 (by decide) (by decide)).2 _
     (by decide) (by decide)⟩

/-- C6: percentile queries on one fixed sample set are monotone in the
percentile: for `p1 < p2` in `[0, 100]`,
`GetLatencyPercentile p1 ≤ GetLatencyPercentile p2`. -/
theorem getLatencyPercentile_mono (s : Stats) (p1 p2 : ℤ)
    (hp0 : 0 ≤ p1) (h12 : p1 < p2) (hp2 : p2 ≤ 100) :
    s.GetLatencyPercentile p1 ≤ s.GetLatencyPercentile p2 := by
  by_cases hnil : s.responseTimes = []
  · simp [Stats.GetLatencyPercentile, hnil]
  · simp only [Stats.GetLatencyPercentile, if_neg hnil]
    have hsort : (s.responseTimes.insertionSort (· ≤ ·)).Sorted (· ≤ ·) :=
      List.sorted_insertionSort _ _
    have hlenpos : 0 < (s.responseTimes.insertionSort (· ≤ ·)).length := by
      rw [(List.perm_insertionSort _ _).length_eq]
      exact List.length_pos.mpr hnil
    set times := s.responseTimes.insertionSort (· ≤ ·) with htimes
    set L : ℤ := (times.length : ℤ) with hL
    have hLpos : 0 < L := by
      rw [hL]
      exact_mod_cast hlenpos
    have hceil : ⌈(p1 : ℚ) / 100 * (L : ℚ)⌉ ≤ ⌈(p2 : ℚ) / 100 * (L : ℚ)⌉ := by
      apply Int.ceil_le_ceil
      have h12q : (p1 : ℚ) ≤ (p2 : ℚ) := by exact_mod_cast le_of_lt h12
      have hLq : (0 : ℚ) ≤ (L : ℚ) := by
        exact_mod_cast le_of_lt hLpos
      have hdiv : (p1 : ℚ) / 100 ≤ (p2 : ℚ) / 100 :=
        (div_le_div_right (by norm_num : (0 : ℚ) < 100)).mpr h12q
      exact mul_le_mul_of_nonneg_right hdiv hLq
    have hidx : (max 0 (min (L - 1) (⌈(p1 : ℚ) / 100 * (L : ℚ)⌉ - 1))).toNat ≤
        (max 0 (min (L - 1) (⌈(p2 : ℚ) / 100 * (L : ℚ)⌉ - 1))).toNat := by
      omega
    have hbound : (max 0 (min (L - 1) (⌈(p2 : ℚ) / 100 * (L : ℚ)⌉ - 1))).toNat <
        times.length := by
      omega
    have hbound1 : (max 0 (min (L - 1) (⌈(p1 : ℚ) / 100 * (L : ℚ)⌉ - 1))).toNat <
        times.length := by
      omega
    rw [List.getD_eq_getElem times 0 hbound1, List.getD_eq_getElem times 0 hbound]
    exact hsort.rel_get_of_le hidx

/-- Witness for C6 at samples `[30, 10, 20]`, `p1 = 50`, `p2 = 90`. -/
theorem getLatencyPercentile_mono_witness :
    (0 : ℤ) ≤ 50 ∧ (50 : ℤ) < 90 ∧ (90 : ℤ) ≤ 100 ∧
    (recordAll NewStats [30, 10, 20]).GetLatencyPercentile 50 ≤
      (recordAll NewStats [30, 10, 20]).GetLatencyPercentile 90 :=
  ⟨by decide, by decide, by decide,
   getLatencyPercentile_mono _ 50 90 (by decide) (by decide) (by decide)⟩

/-- Recording a sample list accumulates the running total, the count,
and the sample list itself. -/
theorem recordAll_fields (samples : List ℤ) : ∀ s : Stats,
    (recordAll s samples).responseTimes = s.responseTimes ++ samples ∧
    (recordAll s samples).totalResponseTime =
      s.totalResponseTime + samples.sum ∧
    (recordAll s samples).responseCount =
      s.responseCount + samples.length := by
  induction samples with
  | nil => intro s; simp [recordAll]
  | cons x xs ih =>
      intro s
      obtain ⟨h1, h2, h3⟩ := ih (s.AddResponseTime x)
      have hr : recordAll s (x :: xs) = recordAll (s.AddResponseTime x) xs := rfl
      refine ⟨?_, ?_, ?_⟩
      · rw [hr, h1]
        simp [Stats.AddResponseTime]
      · rw [hr, h2]
        simp [Stats.AddResponseTime]
        ring
      · rw [hr, h3]
        simp [Stats.AddResponseTime]
        ring

/-- A left fold of additions is the sum of the mapped list. -/
theorem foldl_add_map (f : ℤ → ℚ) (xs : List ℤ) : ∀ c : ℚ,
    xs.foldl (fun (acc : ℚ) (t : ℤ) => acc + f t) c = c + (xs.map f).sum := by
  induction xs with
  | nil => intro c; simp
  | cons x xs ih =>
      intro c
      simp only [List.foldl_cons, ih (c + f x), List.map_cons, List.sum_cons]
      ring

/-- The variance accumulation loop as a mapped sum. -/
theorem variance_foldl (xs : List ℤ) (avg : ℚ) :
    xs.foldl (fun (acc : ℚ) (t : ℤ) => acc + ((t : ℚ) - avg) ^ 2) 0 =
      (xs.map (fun (t : ℤ) => ((t : ℚ) - avg) ^ 2)).sum :=
  (foldl_add_map (fun t => ((t : ℚ) - avg) ^ 2) xs 0).trans (zero_add _)

/-- Casting a sum of squared deviations from `ℚ` to `ℝ`. -/
theorem cast_sum_sq (xs : List ℤ) (aQ : ℚ) (aR : ℝ) (ha : (aQ : ℝ) = aR) :
    (((xs.map (fun (t : ℤ) => ((t : ℚ) - aQ) ^ 2)).sum : ℚ) : ℝ) =
      (xs.map (fun (t : ℤ) => ((t : ℝ) - aR) ^ 2)).sum := by
  induction xs with
  | nil => simp
  | cons x xs ih =>
      simp only [List.map_cons, List.sum_cons, Rat.cast_add, ih]
      congr 1
      rw [← ha]
      push_cast
      ring

/-- C7: `StandardDeviation` is `0` for at most one recorded sample,
`AverageResponseTime` is `0` for no samples, and for `n > 1` samples
`StandardDeviation` equals the Bessel-corrected sample standard
deviation `sqrt(sum (x_i - mean)^2 / (n - 1))`. -/
theorem standardDeviation_spec (samples : List ℤ) :
    (samples.length ≤ 1 → (recordAll NewStats samples).StandardDeviation = 0) ∧
    (samples = [] → (recordAll NewStats samples).AverageResponseTime = 0) ∧
    (1 < samples.length →
      (recordAll NewStats samples).StandardDeviation =
        Real.sqrt
          ((samples.map
              (fun (x : ℤ) => ((x : ℝ) -
                (samples.sum : ℝ) / (samples.length : ℝ)) ^ 2)).sum /
            ((samples.length : ℝ) - 1))) := by
  obtain ⟨hrt0, htot0, hcnt0⟩ := recordAll_fields samples NewStats
  have hrt : (recordAll NewStats samples).responseTimes = samples := by
    rw [hrt0]; rfl
  have htot : (recordAll NewStats samples).totalResponseTime = samples.sum := by
    rw [htot0]
    show (0 : ℤ) + samples.sum = samples.sum
    omega
  have hcnt : (recordAll NewStats samples).responseCount =
      (samples.length : ℤ) := by
    rw [hcnt0]
    show (0 : ℤ) + (samples.length : ℤ) = (samples.length : ℤ)
    omega
  refine ⟨?_, ?_, ?_⟩
  · intro h
    simp [Stats.StandardDeviation, hrt, h]
  · intro h
    subst h
    simp [Stats.AverageResponseTime, hcnt]
  · intro h
    have hne : ¬ (recordAll NewStats samples).responseTimes.length ≤ 1 := by
      rw [hrt]; omega
    simp only [Stats.StandardDeviation, if_neg hne]
    congr 1
    have hradicand :
        (recordAll NewStats samples).varianceRadicand =
          (samples.map
              (fun (t : ℤ) => ((t : ℚ) -
                (samples.sum : ℚ) /
                  (((samples.length : ℤ)) : ℚ)) ^ 2)).sum /
            ((samples.length : ℚ) - 1) := by
      simp only [Stats.varianceRadicand, hrt, htot, hcnt, variance_foldl]
    rw [hradicand, Rat.cast_div]
    have ha : (((samples.sum : ℚ) /
        (((samples.length : ℤ)) : ℚ) : ℚ) : ℝ) =
        (samples.sum : ℝ) / (samples.length : ℝ) := by
      rw [Rat.cast_div]
      norm_cast
    rw [cast_sum_sq samples _ _ ha]
    congr 1
    push_cast
    ring

/-- Witness for C7 at samples `[1, 2, 3]`. -/
theorem standardDeviation_spec_witness :
    1 < ([1, 2, 3] : List ℤ).length ∧
    (recordAll NewStats [1, 2, 3]).StandardDeviation =
      Real.sqrt
        ((([1, 2, 3] : List ℤ).map
            (fun (x : ℤ) => ((x : ℝ) -
              (([1, 2, 3] : List ℤ).sum : ℝ) /
                (([1, 2, 3] : List ℤ).length : ℝ)) ^ 2)).sum /
          ((([1, 2, 3] : List ℤ).length : ℝ) - 1)) :=
  ⟨by decide, (standardDeviation_spec [1, 2, 3]).2.2 (by decide)⟩

/-- The pairs a step's extraction loop collects: one `(name, value)`
per configured extraction whose oracle value is non-empty. -/
def extractPairs (ext : String → String) (l : List (String × String)) :
    List (String × String) :=
  l.filterMap (fun p => if ext p.2 = "" then none else some (p.1, ext p.2))

/-- The extraction fold of `executeStep` produces `extractPairs`. -/
theorem extract_foldl_eq (ext : String → String)
    (l : List (String × String)) : ∀ acc,
    l.foldl (fun acc p =>
        if ext p.2 = "" then acc else acc ++ [(p.1, ext p.2)]) acc =
      acc ++ extractPairs ext l := by
  induction l with
  | nil => intro acc; simp [extractPairs]
  | cons p rest ih =>
      intro acc
      simp only [List.foldl_cons, extractPairs, List.filterMap_cons]
      by_cases h : ext p.2 = ""
      · rw [if_pos h, if_pos h, ih acc]
        rfl
      · rw [if_neg h, if_neg h, ih (acc ++ [(p.1, ext p.2)])]
        simp [extractPairs]

/-- `executeStep` on a response collects exactly `extractPairs` of the
step's extraction map. -/
theorem executeStep_extractedVars (stats : Stats) (step : StepConfig)
    (status rt bodyBytes : ℤ) (valErrs : List String)
    (ext : String → String) :
    (executeStep stats step
        (.response status rt bodyBytes valErrs ext)).1.extractedVars =
      extractPairs ext step.extract := by
  have h1 : (executeStep stats step
      (.response status rt bodyBytes valErrs ext)).1.extractedVars =
      step.extract.foldl (fun acc p =>
        if ext p.2 = "" then acc else acc ++ [(p.1, ext p.2)]) [] := by
    simp only [executeStep]
    (repeat' split) <;> rfl
  rw [h1, extract_foldl_eq]
  rfl

/-- Boolean key comparison is `false` for distinct strings. -/
theorem beq_false_of_ne {a b : String} (h : a ≠ b) : (a == b) = false :=
  beq_eq_false_iff_ne.mpr h

/-- Setting a key makes it the key's binding. -/
theorem lookup_setVar (m : List (String × String)) (k v : String) :
    (setVar m k v).lookup k = some v := by
  induction m with
  | nil => simp [setVar, List.lookup]
  | cons p rest ih =>
      obtain ⟨k', v'⟩ := p
      simp only [setVar]
      by_cases h : k' = k
      · rw [if_pos h]
        subst h
        simp [List.lookup]
      · rw [if_neg h]
        simp only [List.lookup, beq_false_of_ne (Ne.symm h)]
        exact ih

/-- Setting a key leaves every other key's binding unchanged. -/
theorem lookup_setVar_ne (m : List (String × String)) (k v name : String)
    (h : name ≠ k) : (setVar m k v).lookup name = m.lookup name := by
  induction m with
  | nil => simp [setVar, List.lookup, beq_false_of_ne h]
  | cons p rest ih =>
      obtain ⟨k', v'⟩ := p
      simp only [setVar]
      by_cases hk : k' = k
      · rw [if_pos hk]
        subst hk
        simp [List.lookup, beq_false_of_ne h]
      · rw [if_neg hk]
        simp only [List.lookup]
        by_cases hn : name = k'
        · subst hn
          simp
        · simp only [beq_false_of_ne hn]
          exact ih

/-- A key outside the key list has no binding. -/
theorem lookup_none_of_not_mem (m : List (String × String)) (name : String)
    (h : name ∉ m.map Prod.fst) : m.lookup name = none := by
  induction m with
  | nil => simp [List.lookup]
  | cons p rest ih =>
      simp only [List.map_cons, List.mem_cons, not_or] at h
      simp only [List.lookup, beq_false_of_ne h.1]
      exact ih h.2

/-- Merging a `Nodup`-keyed pair list: a merged key's binding is its
merged value, every other key keeps the previous binding. -/
theorem lookup_mergeVars (ps : List (String × String)) :
    ∀ (vars : List (String × String)) (name : String),
      (ps.map Prod.fst).Nodup →
      (mergeVars vars ps).lookup name =
        ((ps.lookup name).or (vars.lookup name)) := by
  induction ps with
  | nil => intro vars name _; simp [mergeVars, List.lookup]
  | cons p rest ih =>
      intro vars name hnd
      obtain ⟨k, v⟩ := p
      simp only [List.map_cons, List.nodup_cons] at hnd
      have hmerge : mergeVars vars ((k, v) :: rest) =
          mergeVars (setVar vars k v) rest := rfl
      rw [hmerge, ih (setVar vars k v) name hnd.2]
      by_cases hn : name = k
      · subst hn
        have hrest : rest.lookup name = none :=
          lookup_none_of_not_mem rest name hnd.1
        simp [List.lookup, hrest, lookup_setVar]
      · simp only [List.lookup, beq_false_of_ne hn,
          lookup_setVar_ne vars k v name hn]

/-- `extractPairs` keys form a sublist of the extraction map's keys. -/
theorem extractPairs_keys_sublist (ext : String → String)
    (l : List (String × String)) :
    ((extractPairs ext l).map Prod.fst).Sublist (l.map Prod.fst) := by
  induction l with
  | nil => simp [extractPairs]
  | cons p rest ih =>
      simp only [extractPairs] at ih ⊢
      simp only [List.filterMap_cons, List.map_cons]
      by_cases h : ext p.2 = ""
      · rw [if_pos h]
        exact ih.cons _
      · rw [if_neg h]
        simp only [List.map_cons]
        exact ih.cons₂ _

/-- Looking up a name among the extracted pairs: the extraction's
oracle value when an extraction is configured for the name and its
value is non-empty, nothing otherwise. -/
theorem lookup_extractPairs (ext : String → String)
    (l : List (String × String)) (name : String)
    (hnd : (l.map Prod.fst).Nodup) :
    (extractPairs ext l).lookup name =
      (l.lookup name).bind
        (fun expr => if ext expr = "" then none else some (ext expr)) := by
  induction l with
  | nil => simp [extractPairs, List.lookup]
  | cons p rest ih =>
      obtain ⟨k, e⟩ := p
      simp only [List.map_cons, List.nodup_cons] at hnd
      simp only [extractPairs] at ih ⊢
      simp only [List.filterMap_cons]
      by_cases hke : ext e = ""
      · rw [if_pos hke]
        by_cases hn : name = k
        · subst hn
          have hrest : (extractPairs ext rest).lookup name = none := by
            apply lookup_none_of_not_mem
            intro hmem
            exact hnd.1 ((extractPairs_keys_sublist ext rest).mem hmem)
          simp only [extractPairs] at hrest
          simp [List.lookup, hrest, hke]
        · simp only [List.lookup, beq_false_of_ne hn]
          exact ih hnd.2
      · rw [if_neg hke]
        by_cases hn : name = k
        · subst hn
          simp [List.lookup, hke]
        · simp only [List.lookup, beq_false_of_ne hn]
          exact ih hnd.2

/-- C10: after a scenario step executes on a response, the variable
map changes only at names whose configured extraction produced a
non-empty string; an extraction returning `""` and the absence of an
extraction both leave the previous binding unchanged. -/
theorem executeStep_variable_frame (stats : Stats) (step : StepConfig)
    (status rt bodyBytes : ℤ) (valErrs : List String)
    (ext : String → String) (vars : List (String × String)) (name : String)
    (hnodup : (step.extract.map Prod.fst).Nodup) :
    (step.extract.lookup name = none →
      (mergeVars vars
          (executeStep stats step
            (.response status rt bodyBytes valErrs ext)).1.extractedVars).lookup
        name = vars.lookup name) ∧
    (∀ expr, step.extract.lookup name = some expr →
      (ext expr = "" →
        (mergeVars vars
            (executeStep stats step
              (.response status rt bodyBytes valErrs ext)).1.extractedVars).lookup
          name = vars.lookup name) ∧
      (ext expr ≠ "" →
        (mergeVars vars
            (executeStep stats step
              (.response status rt bodyBytes valErrs ext)).1.extractedVars).lookup
          name = some (ext expr))) := by
  rw [executeStep_extractedVars]
  have hkeys : ((extractPairs ext step.extract).map Prod.fst).Nodup :=
    hnodup.sublist (extractPairs_keys_sublist ext step.extract)
  rw [lookup_mergeVars _ vars name hkeys,
    lookup_extractPairs ext step.extract name hnodup]
  constructor
  · intro hnone
    rw [hnone]
    rfl
  · intro expr hsome
    rw [hsome]
    constructor
    · intro hempty
      simp [hempty]
    · intro hne
      simp [hne]

/-- Witness for C10: one extraction yielding `"abc"` for `tok` and one
yielding `""` for `usr`; `tok` is rebound, `usr` keeps its old value. -/
theorem executeStep_variable_frame_witness :
    (([("tok", "$.t"), ("usr", "$.u")].map Prod.fst).Nodup ∧
      ([("tok", "$.t"), ("usr", "$.u")] :
          List (String × String)).lookup "tok" = some "$.t" ∧
      (fun e => if e = "$.t" then "abc" else "") "$.t" ≠ "" ∧
      (mergeVars [("usr", "old")]
          (executeStep NewStats
            { name := "s", url := "u", method := "GET",
              extract := [("tok", "$.t"), ("usr", "$.u")] }
            (.response 200 1 1 []
              (fun e => if e = "$.t" then "abc" else ""))).1.extractedVars).lookup
        "tok" = some ((fun e => if e = "$.t" then "abc" else "") "$.t")) :=
  ⟨by decide, by decide, by decide,
   ((executeStep_variable_frame NewStats
      { name := "s", url := "u", method := "GET",
        extract := [("tok", "$.t"), ("usr", "$.u")] }
      200 1 1 [] (fun e => if e = "$.t" then "abc" else "")
      [("usr", "old")] "tok" (by decide)).2 "$.t" (by decide)).2 (by decide)⟩

end BenchGo
